import Mathlib

/-!
Shallow embedding of `networkx/algorithms/centrality/bipartite_centrality.py`
(bipartite degree, betweenness and closeness centrality) together with proofs
about it.

Modelling conventions:
* Node identifiers are `Nat`; Python floats are modelled as exact rationals `ℚ`.
* Python dictionaries are association lists (`Dict`) with in-place overwrite
  (`dictSet`); Python sets of small naturals are modelled as sorted
  duplicate-free lists (`pySet`), matching the iteration order of CPython
  small-int sets.
* A Python runtime error (`ZeroDivisionError`, `KeyError`) is modelled with
  `Except PyErr`; functions in which no division by zero or missing key can
  occur are total.
* The float key `n = float(len(top))` used by the closeness fallback branch is
  the same dictionary key as the integer `len(top)` in Python, so it is
  modelled as the `Nat` key `(topOf nodes).length`.
-/

namespace BipartiteCentrality

/-- Python runtime errors that the embedded code can raise. -/
inductive PyErr where
  | zeroDivision : PyErr
  | keyError : PyErr
deriving DecidableEq, Repr

/-- A Python dictionary with `Nat` keys and float (`ℚ`) values, as an
association list whose keys are kept unique by `dictSet`. -/
abbrev Dict := List (Nat × ℚ)

/-- Dictionary lookup (`d[k]` as an `Option`). -/
def dictGet : Dict → Nat → Option ℚ
  | [], _ => none
  | q :: d, k => if q.1 = k then some q.2 else dictGet d k

/-- Dictionary assignment `d[k] = v`: overwrite in place if the key exists,
otherwise append. -/
def dictSet (d : Dict) (k : Nat) (v : ℚ) : Dict :=
  if k ∈ d.map Prod.fst then d.map (fun q => if q.1 = k then (k, v) else q)
  else d ++ [(k, v)]

/-- Build a dictionary from a list of pairs, later pairs overwriting earlier
ones (Python `dict(pairs)`). -/
def dictUpdateMany (d : Dict) (ps : List (Nat × ℚ)) : Dict :=
  ps.foldl (fun d q => dictSet d q.1 q.2) d

/-- Python `dict(pairs)`. -/
def dictOfPairs (ps : List (Nat × ℚ)) : Dict := dictUpdateMany [] ps

/-- Dictionary lookup that raises `KeyError` when the key is absent. -/
def dictGetE (d : Dict) (k : Nat) : Except PyErr ℚ :=
  match dictGet d k with
  | some v => Except.ok v
  | none => Except.error PyErr.keyError

/-- Python float division, raising `ZeroDivisionError` on a zero divisor. -/
def pyDiv (a b : ℚ) : Except PyErr ℚ :=
  if b = 0 then Except.error PyErr.zeroDivision else Except.ok (a / b)

/-- Python float floor division `a // b`. -/
def pyFloorDiv (a b : ℚ) : Except PyErr ℚ :=
  if b = 0 then Except.error PyErr.zeroDivision else Except.ok ((⌊a / b⌋ : ℤ) : ℚ)

/-- Python float modulo `a % b` (`a - b * (a // b)`). -/
def pyMod (a b : ℚ) : Except PyErr ℚ :=
  if b = 0 then Except.error PyErr.zeroDivision
  else Except.ok (a - b * ((⌊a / b⌋ : ℤ) : ℚ))

/-- A Python set of naturals: duplicate-free and listed in increasing order
(the iteration order of a CPython set of small non-negative integers). -/
def pySet (l : List Nat) : List Nat := l.dedup.insertionSort (· ≤ ·)

/-- The graph data structure: a plain node list and undirected edge list.
Only the capabilities the spec names are used: node enumeration, degree and
breadth-first shortest-path distances. -/
structure Graph where
  nodes : List Nat
  edges : List (Nat × Nat)

/-- The set of nodes of the graph (`set(G)`). -/
def Graph.nodeSet (G : Graph) : List Nat := pySet G.nodes

/-- Number of nodes, Python `len(G)`. -/
def Graph.size (G : Graph) : Nat := G.nodeSet.length

/-- Undirected adjacency: some stored edge joins `a` and `b`. -/
def Graph.adj (G : Graph) (a b : Nat) : Bool :=
  decide ((a, b) ∈ G.edges ∨ (b, a) ∈ G.edges)

/-- The distinct neighbours of `v` inside the node set. -/
def Graph.nbrs (G : Graph) (v : Nat) : List Nat :=
  G.nodeSet.filter (fun u => G.adj v u)

/-- Modelled from the spec: the consumed capability
`Degree(graph, node) -> integer`; the graph class itself is not under `src/`.
As in the library, a self-loop contributes one extra to the degree. -/
def Graph.degree (G : Graph) (v : Nat) : Nat :=
  (G.nbrs v).length + (if G.adj v v then 1 else 0)

/-- Modelled from the spec: iteration of the external `Degree` capability over
a node container, as the library's `G.degree_iter(nbunch)` does (nodes absent
from the graph are quietly ignored); this primitive is not under `src/`. -/
def degree_iter (G : Graph) (nbunch : List Nat) : List (Nat × Nat) :=
  (nbunch.filter (fun v => decide (v ∈ G.nodeSet))).map (fun v => (v, G.degree v))

/-- `top = set(nodes)`, shared first line of all three centrality functions. -/
def topOf (nodes : List Nat) : List Nat := pySet nodes

/-- `bottom = set(G) - top`, shared second line of all three functions. -/
def bottomOf (G : Graph) (nodes : List Nat) : List Nat :=
  G.nodeSet.filter (fun v => decide (v ∉ topOf nodes))

/-- Modelled from the spec: the consumed capability
`SingleSourceShortestPathLengths(graph, source) -> mapping<node, integer
distance>` (unweighted BFS, unreachable nodes excluded); the library primitive
`nx.single_source_shortest_path_length` is not under `src/`.  One fuel unit is
spent per BFS level; `G.nodeSet.length` levels always suffice. -/
def bfsAux (G : Graph) : Nat → List Nat → Nat → List (Nat × Nat) → List (Nat × Nat)
  | 0, _, _, visited => visited
  | fuel + 1, frontier, d, visited =>
    let next := G.nodeSet.filter (fun u =>
      decide (u ∉ visited.map Prod.fst) && frontier.any (fun w => G.adj w u))
    if next.isEmpty then visited
    else bfsAux G fuel next (d + 1) (visited ++ next.map (fun u => (u, d + 1)))

/-- Modelled from the spec: single-source shortest path lengths by BFS. -/
def single_source_shortest_path_length (G : Graph) (s : Nat) : List (Nat × Nat) :=
  bfsAux G G.nodeSet.length [s] 0 [(s, 0)]

/-- `sum(sp.values())`. -/
def spSum (sp : List (Nat × Nat)) : Nat := (sp.map Prod.snd).sum

/-- Embedding of `bipartite_degree_centrality(G, nodes)`. -/
def bipartite_degree_centrality (G : Graph) (nodes : List Nat) :
    Except PyErr Dict := do
  let top := topOf nodes
  let bottom := bottomOf G nodes
  let s ← pyDiv 1 (bottom.length : ℚ)
  let centrality := dictOfPairs
    ((degree_iter G top).map (fun q => (q.1, (q.2 : ℚ) * s)))
  let s2 ← pyDiv 1 (top.length : ℚ)
  let centrality2 := dictUpdateMany centrality
    ((degree_iter G bottom).map (fun q => (q.1, (q.2 : ℚ) * s2)))
  return centrality2

/-- The loop `for node in l: bet[node] /= c` over a Python dict, raising
`KeyError` for a missing key and `ZeroDivisionError` when `c = 0`. -/
def divLoop (c : ℚ) : List Nat → Dict → Except PyErr Dict
  | [], bet => Except.ok bet
  | node :: rest, bet =>
    match dictGet bet node with
    | none => Except.error PyErr.keyError
    | some old =>
      match pyDiv old c with
      | Except.error e => Except.error e
      | Except.ok q => divLoop c rest (dictSet bet node q)

/-- Embedding of `bipartite_betweenness_centrality(G, nodes)`.  The external
primitive `nx.betweenness_centrality(G, normalized=False, weighted_edges=False)`
(not under `src/`; the spec's consumed capability `RawBetweennessCentrality`)
is abstracted as the argument `raw`. -/
def bipartite_betweenness_centrality (raw : Graph → Dict) (G : Graph)
    (nodes : List Nat) : Except PyErr Dict := do
  let top := topOf nodes
  let bottom := bottomOf G nodes
  let n : ℚ := (top.length : ℚ)
  let m : ℚ := (bottom.length : ℚ)
  let s ← pyFloorDiv (n - 1) m
  let t ← pyMod (n - 1) m
  let bet_max_top : ℚ :=
    ((m ^ 2 * (s + 1) ^ 2) + (m * (s + 1) * (2 * t - s - 1)) -
      (t * (2 * s - t + 3))) / 2
  let p ← pyFloorDiv (m - 1) n
  let r ← pyMod (m - 1) n
  let bet_max_bot : ℚ :=
    ((n ^ 2 * (p + 1) ^ 2) + (n * (p + 1) * (2 * r - p - 1)) -
      (r * (2 * p - r + 3))) / 2
  let betweenness := raw G
  let betweenness ← divLoop bet_max_top top betweenness
  let betweenness ← divLoop bet_max_bot bottom betweenness
  return betweenness

/-- Embedding of `bipartite_closeness_centrality(G, nodes, normalized)`.
No division in it can have a zero divisor (both are guarded), so it is total.
Note the fallback branch writes key `top.length` (the float `n`), exactly as
the source writes `closeness[n] = 0.0`. -/
def bipartite_closeness_centrality (G : Graph) (nodes : List Nat)
    (normalized : Bool) : Dict :=
  let top := topOf nodes
  let bottom := bottomOf G nodes
  let n : ℚ := (top.length : ℚ)
  let m : ℚ := (bottom.length : ℚ)
  let closeness := top.foldl (fun closeness node =>
    let sp := single_source_shortest_path_length G node
    let totsp := spSum sp
    if 0 < totsp ∧ 1 < G.size then
      let c0 := (m + 2 * (n - 1)) / (totsp : ℚ)
      let c := if normalized then
        c0 * (((sp.length : ℚ) - 1) / ((G.size : ℚ) - 1)) else c0
      dictSet closeness node c
    else
      dictSet closeness top.length 0) []
  bottom.foldl (fun closeness node =>
    let sp := single_source_shortest_path_length G node
    let totsp := spSum sp
    if 0 < totsp ∧ 1 < G.size then
      let c0 := (n + 2 * (m - 1)) / (totsp : ℚ)
      let c := if normalized then
        c0 * (((sp.length : ℚ) - 1) / ((G.size : ℚ) - 1)) else c0
      dictSet closeness node c
    else
      dictSet closeness top.length 0) closeness

/-- The two loops of `bipartite_closeness_centrality` as a function of the
iteration orders in which the runtime hands over the elements of the sets
`top` and `bottom`.  The body is the one of `bipartite_closeness_centrality`
verbatim (certified by the `rfl` proof of `closeness_centrality_eq_loops`);
only the first two lines — which materialize `set(nodes)` and
`set(G) - top` into concrete iteration orders — are hoisted into parameters.
CPython does not guarantee a canonical iteration order for a set: it depends
on the container's insertion history, so the same element set can reach these
loops in different orders. -/
def closeness_loops (G : Graph) (top bottom : List Nat) (normalized : Bool) :
    Dict :=
  let n : ℚ := (top.length : ℚ)
  let m : ℚ := (bottom.length : ℚ)
  let closeness := top.foldl (fun closeness node =>
    let sp := single_source_shortest_path_length G node
    let totsp := spSum sp
    if 0 < totsp ∧ 1 < G.size then
      let c0 := (m + 2 * (n - 1)) / (totsp : ℚ)
      let c := if normalized then
        c0 * (((sp.length : ℚ) - 1) / ((G.size : ℚ) - 1)) else c0
      dictSet closeness node c
    else
      dictSet closeness top.length 0) []
  bottom.foldl (fun closeness node =>
    let sp := single_source_shortest_path_length G node
    let totsp := spSum sp
    if 0 < totsp ∧ 1 < G.size then
      let c0 := (n + 2 * (m - 1)) / (totsp : ℚ)
      let c := if normalized then
        c0 * (((sp.length : ℚ) - 1) / ((G.size : ℚ) - 1)) else c0
      dictSet closeness node c
    else
      dictSet closeness top.length 0) closeness

/-- The score a non-fallback closeness step stores for `node`, with `num` the
bipartite numerator of the node's side. -/
def closenessVal (G : Graph) (num : ℚ) (normalized : Bool) (node : Nat) : ℚ :=
  let sp := single_source_shortest_path_length G node
  let totsp := spSum sp
  let c0 := num / (totsp : ℚ)
  if normalized then c0 * (((sp.length : ℚ) - 1) / ((G.size : ℚ) - 1)) else c0

/-- The normalization constant for Top-side betweenness, written exactly as
the specification states it:  with `n = |Top|`, `m = |Bottom|`,
`s = floor((n-1)/m)` and `t = (n-1) mod m`,
`[ m^2 (s+1)^2 + m (s+1)(2t - s - 1) - t (2s - t + 3) ] / 2`. -/
def betMaxTop (G : Graph) (nodes : List Nat) : ℚ :=
  let n : ℚ := ((topOf nodes).length : ℚ)
  let m : ℚ := ((bottomOf G nodes).length : ℚ)
  let s : ℚ := ((⌊(n - 1) / m⌋ : ℤ) : ℚ)
  let t : ℚ := (n - 1) - m * ((⌊(n - 1) / m⌋ : ℤ) : ℚ)
  ((m ^ 2 * (s + 1) ^ 2) + (m * (s + 1) * (2 * t - s - 1)) -
    (t * (2 * s - t + 3))) / 2

/-- The normalization constant for Bottom-side betweenness, per the spec:
with `p = floor((m-1)/n)` and `r = (m-1) mod n`,
`[ n^2 (p+1)^2 + n (p+1)(2r - p - 1) - r (2p - r + 3) ] / 2`. -/
def betMaxBot (G : Graph) (nodes : List Nat) : ℚ :=
  let n : ℚ := ((topOf nodes).length : ℚ)
  let m : ℚ := ((bottomOf G nodes).length : ℚ)
  let p : ℚ := ((⌊(m - 1) / n⌋ : ℤ) : ℚ)
  let r : ℚ := (m - 1) - n * ((⌊(m - 1) / n⌋ : ℤ) : ℚ)
  ((n ^ 2 * (p + 1) ^ 2) + (n * (p + 1) * (2 * r - p - 1)) -
    (r * (2 * p - r + 3))) / 2

/-! ### Concrete instances used by counterexamples and witnesses -/

/-- Nodes 2, 3 and 10 with the single edge 2-3; node 10 is isolated.  A
CPython set built from [2, 10] iterates as [2, 10] while one built from
[10, 2] iterates as [10, 2] (hash 10 collides with hash 2 in the 8-slot
table, so slot assignment follows insertion order), which the closeness
fallback write at key `len(top) = 2` turns into different results. -/
def Gc : Graph := ⟨[2, 3, 10], [(2, 3)]⟩

/-- Two isolated nodes 5 and 9. -/
def G1 : Graph := ⟨[5, 9], []⟩

/-- A single edge joining nodes 0 and 1. -/
def G2 : Graph := ⟨[0, 1], [(0, 1)]⟩

/-- Nodes 0, 1, 2 with the single edge 0-2; with Top = {0, 1}, node 1 is an
isolated Top node and the graph is disconnected but genuinely bipartite. -/
def G3 : Graph := ⟨[0, 1, 2], [(0, 2)]⟩

/-- Nodes 0..3 with edges 1-3 and 2-3; with Top = {1, 2}, node 0 is an
isolated Bottom node and `|Top| = 2` collides with the node identifier 2. -/
def G5 : Graph := ⟨[0, 1, 2, 3], [(1, 3), (2, 3)]⟩

/-- The alternating path 0-1-2-3 (the spec's `A-X-B-Y` scenario with
Top = {0, 2}). -/
def Gp : Graph := ⟨[0, 1, 2, 3], [(0, 1), (1, 2), (2, 3)]⟩

/-- A sample raw betweenness mapping for `Gp` (the two middle nodes of the
path lie on two shortest-path pairs each). -/
def rawP : Graph → Dict := fun _ => [(0, 0), (1, 2), (2, 2), (3, 0)]

/-- A sample raw betweenness mapping for `G2`. -/
def raw2 : Graph → Dict := fun _ => [(0, 0), (1, 0)]

/-! ### Basic lemmas about the dictionary model -/

theorem dictGet_nil (k : Nat) : dictGet [] k = none := rfl

theorem dictGet_cons (q : Nat × ℚ) (d : Dict) (k : Nat) :
    dictGet (q :: d) k = if q.1 = k then some q.2 else dictGet d k := rfl

theorem dictGet_map_replace {d : Dict} {k : Nat} {v : ℚ}
    (h : k ∈ d.map Prod.fst) :
    dictGet (d.map (fun q => if q.1 = k then (k, v) else q)) k = some v := by
  induction d with
  | nil => simp at h
  | cons q d ih =>
    by_cases hq : q.1 = k
    · simp [dictGet_cons, List.map_cons, hq]
    · simp only [List.map_cons, if_neg hq, dictGet_cons]
      simp only [List.map_cons, List.mem_cons] at h
      rcases h with h | h
      · exact absurd h.symm hq
      · exact ih h

theorem dictGet_append_single {d : Dict} {k : Nat} {v : ℚ}
    (h : k ∉ d.map Prod.fst) :
    dictGet (d ++ [(k, v)]) k = some v := by
  induction d with
  | nil => simp [dictGet_cons]
  | cons q d ih =>
    simp only [List.map_cons, List.mem_cons] at h
    push_neg at h
    have hq : ¬ q.1 = k := fun hc => h.1 hc.symm
    simp only [List.cons_append, dictGet_cons, if_neg hq]
    exact ih h.2

theorem dictGet_dictSet_self (d : Dict) (k : Nat) (v : ℚ) :
    dictGet (dictSet d k v) k = some v := by
  unfold dictSet
  split
  · exact dictGet_map_replace (by assumption)
  · exact dictGet_append_single (by assumption)

theorem dictGet_map_replace_ne {d : Dict} {k k' : Nat} {v : ℚ} (h : k' ≠ k) :
    dictGet (d.map (fun q => if q.1 = k then (k, v) else q)) k' = dictGet d k' := by
  induction d with
  | nil => rfl
  | cons q d ih =>
    simp only [List.map_cons]
    by_cases hq : q.1 = k
    · rw [if_pos hq, dictGet_cons, dictGet_cons]
      have e1 : ¬ (((k, v) : Nat × ℚ).1 = k') := fun hc => h hc.symm
      have e2 : ¬ (q.1 = k') := fun hc => h (hc ▸ hq)
      rw [if_neg e1, if_neg e2, ih]
    · rw [if_neg hq, dictGet_cons, dictGet_cons]
      by_cases hk' : q.1 = k'
      · rw [if_pos hk', if_pos hk']
      · rw [if_neg hk', if_neg hk', ih]

theorem dictGet_append_single_ne {d : Dict} {k k' : Nat} {v : ℚ} (h : k' ≠ k) :
    dictGet (d ++ [(k, v)]) k' = dictGet d k' := by
  induction d with
  | nil =>
    have e1 : ¬ (((k, v) : Nat × ℚ).1 = k') := fun hc => h hc.symm
    simp only [List.nil_append, dictGet_cons, if_neg e1, dictGet_nil]
  | cons q d ih =>
    simp only [List.cons_append, dictGet_cons, ih]

theorem dictGet_dictSet_ne (d : Dict) {k k' : Nat} (v : ℚ) (h : k' ≠ k) :
    dictGet (dictSet d k v) k' = dictGet d k' := by
  unfold dictSet
  split
  · exact dictGet_map_replace_ne h
  · exact dictGet_append_single_ne h

theorem isSome_dictGet_dictSet (d : Dict) (k : Nat) (v : ℚ) (k' : Nat)
    (h : (dictGet d k').isSome) : (dictGet (dictSet d k v) k').isSome := by
  by_cases hk : k' = k
  · subst hk; simp [dictGet_dictSet_self]
  · rwa [dictGet_dictSet_ne d v hk]

theorem mem_dictSet {d : Dict} {k : Nat} {v : ℚ} {q : Nat × ℚ}
    (h : q ∈ dictSet d k v) : q ∈ d ∨ q = (k, v) := by
  unfold dictSet at h
  split at h
  · rcases List.mem_map.mp h with ⟨q', hq', hEq⟩
    by_cases hc : q'.1 = k
    · right; simp [hc] at hEq; exact hEq.symm
    · left; simp [hc] at hEq; subst hEq; exact hq'
  · rcases List.mem_append.mp h with h | h
    · exact Or.inl h
    · right; simpa using h

theorem dictGet_mem {d : Dict} {k : Nat} {v : ℚ}
    (h : dictGet d k = some v) : (k, v) ∈ d := by
  induction d with
  | nil => simp [dictGet_nil] at h
  | cons q d ih =>
    rw [dictGet_cons] at h
    by_cases hq : q.1 = k
    · rw [if_pos hq] at h
      have hqe : q = (k, v) := by
        obtain ⟨q1, q2⟩ := q
        obtain rfl : q1 = k := hq
        obtain rfl : q2 = v := Option.some.inj h
        rfl
      rw [hqe]
      exact List.mem_cons_self _ _
    · rw [if_neg hq] at h
      exact List.mem_cons_of_mem _ (ih h)

theorem dictGet_updateMany_notMem {ps : List (Nat × ℚ)} {k : Nat}
    (h : k ∉ ps.map Prod.fst) (d : Dict) :
    dictGet (dictUpdateMany d ps) k = dictGet d k := by
  induction ps generalizing d with
  | nil => rfl
  | cons q ps ih =>
    simp only [List.map_cons, List.mem_cons] at h
    push_neg at h
    simp only [dictUpdateMany, List.foldl_cons]
    rw [show (ps.foldl (fun d q => dictSet d q.1 q.2) (dictSet d q.1 q.2)) =
      dictUpdateMany (dictSet d q.1 q.2) ps from rfl]
    rw [ih h.2, dictGet_dictSet_ne _ _ h.1]

theorem dictGet_updateMany_mem {ps : List (Nat × ℚ)} {k : Nat} {v : ℚ}
    (hnd : (ps.map Prod.fst).Nodup) (h : (k, v) ∈ ps) (d : Dict) :
    dictGet (dictUpdateMany d ps) k = some v := by
  induction ps generalizing d with
  | nil => simp at h
  | cons q ps ih =>
    simp only [List.map_cons, List.nodup_cons] at hnd
    simp only [dictUpdateMany, List.foldl_cons]
    rw [show (ps.foldl (fun d q => dictSet d q.1 q.2) (dictSet d q.1 q.2)) =
      dictUpdateMany (dictSet d q.1 q.2) ps from rfl]
    rcases List.mem_cons.mp h with h | h
    · have hk : k ∉ ps.map Prod.fst := by
        rw [← h] at hnd; exact hnd.1
      rw [dictGet_updateMany_notMem hk, ← h, dictGet_dictSet_self]
    · exact ih hnd.2 h _

theorem mem_updateMany {ps : List (Nat × ℚ)} {q : Nat × ℚ} {d : Dict}
    (h : q ∈ dictUpdateMany d ps) : q ∈ d ∨ q ∈ ps := by
  induction ps generalizing d with
  | nil => exact Or.inl h
  | cons p ps ih =>
    simp only [dictUpdateMany, List.foldl_cons] at h
    rcases ih h with h' | h'
    · rcases mem_dictSet h' with h'' | h''
      · exact Or.inl h''
      · right; rw [h'']; exact List.mem_cons_self _ _
    · right; exact List.mem_cons_of_mem _ h'

/-! ### Basic lemmas about sets, graphs and BFS -/

theorem mem_pySet {l : List Nat} {a : Nat} : a ∈ pySet l ↔ a ∈ l := by
  rw [pySet, (List.perm_insertionSort _ _).mem_iff, List.mem_dedup]

theorem pySet_nodup (l : List Nat) : (pySet l).Nodup :=
  ((List.perm_insertionSort _ _).nodup_iff).mpr l.nodup_dedup

theorem topOf_nodup (nodes : List Nat) : (topOf nodes).Nodup := pySet_nodup _

theorem nodeSet_nodup (G : Graph) : G.nodeSet.Nodup := pySet_nodup _

theorem bottomOf_nodup (G : Graph) (nodes : List Nat) :
    (bottomOf G nodes).Nodup := (nodeSet_nodup G).filter _

theorem mem_bottomOf {G : Graph} {nodes : List Nat} {v : Nat} :
    v ∈ bottomOf G nodes ↔ v ∈ G.nodeSet ∧ v ∉ topOf nodes := by
  simp [bottomOf, List.mem_filter]

theorem mem_topOf {nodes : List Nat} {v : Nat} :
    v ∈ topOf nodes ↔ v ∈ nodes := mem_pySet

theorem bfsAux_length_le (G : Graph) :
    ∀ (fuel : Nat) (frontier : List Nat) (d : Nat) (visited : List (Nat × Nat)),
      visited.length ≤ (bfsAux G fuel frontier d visited).length := by
  intro fuel
  induction fuel with
  | zero => intro frontier d visited; simp [bfsAux]
  | succ f ih =>
    intro frontier d visited
    simp only [bfsAux]
    split
    · exact le_refl _
    · exact le_trans (by simp) (ih _ _ _)

theorem one_le_sssp_length (G : Graph) (s : Nat) :
    1 ≤ (single_source_shortest_path_length G s).length := by
  have h := bfsAux_length_le G G.nodeSet.length [s] 0 [(s, 0)]
  simpa [single_source_shortest_path_length] using h

/-! ### Generic lemmas about folds that write into a dictionary -/

theorem foldl_inv {α : Type} (P : Dict → Prop) {f : Dict → α → Dict} :
    ∀ (l : List α) (d0 : Dict), (∀ d x, x ∈ l → P d → P (f d x)) → P d0 →
      P (l.foldl f d0) := by
  intro l
  induction l with
  | nil => intro d0 _ h0; exact h0
  | cons x xs ih =>
    intro d0 hstep h0
    exact ih _ (fun d y hy hd => hstep d y (List.mem_cons_of_mem _ hy) hd)
      (hstep d0 x (List.mem_cons_self _ _) h0)

theorem dictGet_foldl_frozen {α : Type} {f : Dict → α → Dict} {k : Nat} :
    ∀ (l : List α) (d0 : Dict), (∀ d x, x ∈ l → dictGet (f d x) k = dictGet d k) →
      dictGet (l.foldl f d0) k = dictGet d0 k := by
  intro l
  induction l with
  | nil => intro d0 _; rfl
  | cons x xs ih =>
    intro d0 h
    rw [List.foldl_cons, ih _ (fun d y hy => h d y (List.mem_cons_of_mem _ hy)),
      h d0 x (List.mem_cons_self _ _)]

theorem okBind {α β : Type} (a : α) (f : α → Except PyErr β) :
    (Except.ok a >>= f) = f a := rfl

theorem errBind {α β : Type} (e : PyErr) (f : α → Except PyErr β) :
    ((Except.error e : Except PyErr α) >>= f) = Except.error e := rfl

/-! ### Evaluation lemmas for the concrete instances (Nat-level, by kernel
computation) -/

theorem top_5 : topOf [5] = [5] := by decide

theorem top_01 : topOf [0, 1] = [0, 1] := by decide

theorem top_12 : topOf [1, 2] = [1, 2] := by decide

theorem bottom_G1 : bottomOf G1 [5] = [9] := by decide

theorem bottom_G2 : bottomOf G2 [0, 1] = [] := by decide

theorem bottom_G3 : bottomOf G3 [0, 1] = [2] := by decide

theorem bottom_G5 : bottomOf G5 [1, 2] = [0, 3] := by decide

theorem size_G1 : G1.size = 2 := by decide

theorem size_G2 : G2.size = 2 := by decide

theorem size_G3 : G3.size = 3 := by decide

theorem size_G5 : G5.size = 4 := by decide

theorem ssp_G1_5 : single_source_shortest_path_length G1 5 = [(5, 0)] := by decide

theorem ssp_G1_9 : single_source_shortest_path_length G1 9 = [(9, 0)] := by decide

theorem ssp_G2_0 : single_source_shortest_path_length G2 0 = [(0, 0), (1, 1)] := by decide

theorem ssp_G2_1 : single_source_shortest_path_length G2 1 = [(1, 0), (0, 1)] := by decide

theorem ssp_G3_0 : single_source_shortest_path_length G3 0 = [(0, 0), (2, 1)] := by decide

theorem ssp_G3_1 : single_source_shortest_path_length G3 1 = [(1, 0)] := by decide

theorem ssp_G3_2 : single_source_shortest_path_length G3 2 = [(2, 0), (0, 1)] := by decide

theorem ssp_G5_0 : single_source_shortest_path_length G5 0 = [(0, 0)] := by decide

theorem ssp_G5_1 : single_source_shortest_path_length G5 1 = [(1, 0), (3, 1), (2, 2)] := by
  decide

theorem ssp_G5_2 : single_source_shortest_path_length G5 2 = [(2, 0), (3, 1), (1, 2)] := by
  decide

theorem ssp_G5_3 : single_source_shortest_path_length G5 3 = [(3, 0), (1, 1), (2, 1)] := by
  decide

/-- Full evaluation of closeness centrality on `G5` with Top = {1, 2}: the
isolated Bottom node 0 triggers the fallback write at key `|Top| = 2`, which
clobbers the score 8/9 that the Top loop had correctly stored for node 2, and
node 0 itself receives no entry. -/
theorem closeness_G5_eval :
    bipartite_closeness_centrality G5 [1, 2] true = [(1, 8/9), (2, 0), (3, 4/3)] := by
  norm_num [bipartite_closeness_centrality, top_12, bottom_G5, size_G5,
    ssp_G5_0, ssp_G5_1, ssp_G5_2, ssp_G5_3, spSum, dictSet]

/-- Full evaluation of closeness centrality on `G3` with Top = {0, 1}: the
isolated Top node 1 triggers the fallback write at key `|Top| = 2`, and the
normalized score of node 0 is 3/2. -/
theorem closeness_G3_eval :
    bipartite_closeness_centrality G3 [0, 1] true = [(0, 3 / 2), (2, 1)] := by
  norm_num [bipartite_closeness_centrality, top_01, bottom_G3, size_G3,
    ssp_G3_0, ssp_G3_1, ssp_G3_2, spSum, dictSet]

/-! ### Claim C1 -/

/-- C1 (code bug): the claim — per the spec's edge-case policy — requires every
zero-total-distance node `v` to be recorded with score 0.0 under `v`'s own
key.  The code instead executes `closeness[n] = 0.0` where `n = float(len(top))`
is the size of Top.  On the edgeless graph `G1` with nodes {5, 9} and
Top = {5}, every node is isolated, and the returned dictionary is exactly
{1: 0.0} — keyed by the count `|Top| = 1`; neither node 5 nor node 9 gets any
entry under its own key. -/
theorem closeness_fallback_key_bug :
    bipartite_closeness_centrality G1 [5] true = [(1, 0)] ∧
    dictGet (bipartite_closeness_centrality G1 [5] true) 5 = none ∧
    dictGet (bipartite_closeness_centrality G1 [5] true) 9 = none := by
  have h : bipartite_closeness_centrality G1 [5] true = [(1, 0)] := by
    norm_num [bipartite_closeness_centrality, top_5, bottom_G1, size_G1,
      ssp_G1_5, ssp_G1_9, spSum, dictSet]
  exact ⟨h, by rw [h]; rfl, by rw [h]; rfl⟩

/-! ### Claim C2 -/

/-- C2 (counterexample): the claim says every operation fails with
`InvalidPartition` whenever Top equals the full node set.  With Top = the full
node set of `G2` (so Bottom is empty), closeness centrality does not fail at
all: it returns the complete mapping {0: 2.0, 1: 2.0}. -/
theorem closeness_full_top_returns_result :
    topOf [0, 1] = G2.nodeSet ∧
    bipartite_closeness_centrality G2 [0, 1] true = [(0, 2), (1, 2)] := by
  constructor
  · decide
  · norm_num [bipartite_closeness_centrality, top_01, bottom_G2, size_G2,
      ssp_G2_0, ssp_G2_1, spSum, dictSet]

/-- C2 (amended): no eager validation exists and `InvalidPartition` is never
raised.  When Top or Bottom is empty, degree centrality and betweenness
centrality fail with a plain division-by-zero error raised mid-computation,
and (per the counterexample) closeness centrality does not fail at all. -/
theorem no_partition_validation (G : Graph) (nodes : List Nat)
    (h : topOf nodes = [] ∨ bottomOf G nodes = []) :
    bipartite_degree_centrality G nodes = Except.error PyErr.zeroDivision ∧
    ∀ raw, bipartite_betweenness_centrality raw G nodes =
      Except.error PyErr.zeroDivision := by
  by_cases hbot : bottomOf G nodes = []
  · constructor
    · simp [bipartite_degree_centrality, hbot, pyDiv, errBind]
    · intro raw
      simp [bipartite_betweenness_centrality, hbot, pyFloorDiv, errBind]
  · have htop : topOf nodes = [] := h.resolve_right hbot
    have hb : (((bottomOf G nodes).length : ℚ)) ≠ 0 :=
      Nat.cast_ne_zero.mpr (fun hc => hbot (List.length_eq_zero.mp hc))
    constructor
    · simp [bipartite_degree_centrality, htop, pyDiv, hb, okBind, errBind]
    · intro raw
      simp [bipartite_betweenness_centrality, htop, pyFloorDiv, pyMod, hb,
        okBind, errBind]

/-- C2 (witness for the amended theorem): on `G2` with Top = the full node
set, degree and betweenness centrality indeed fail with the division-by-zero
error. -/
theorem no_partition_validation_w :
    bipartite_degree_centrality G2 [0, 1] = Except.error PyErr.zeroDivision ∧
    bipartite_betweenness_centrality raw2 G2 [0, 1] =
      Except.error PyErr.zeroDivision :=
  ⟨(no_partition_validation G2 [0, 1] (Or.inr (by decide))).1,
   (no_partition_validation G2 [0, 1] (Or.inr (by decide))).2 raw2⟩

/-! ### Claim C3 -/

/-- C3 (counterexample): the claim says every normalized closeness score lies
in [0, 1] for every graph and valid partition.  On the disconnected (and
genuinely bipartite) graph `G3` with the valid partition Top = {0, 1},
node 0 receives the normalized score 3/2 > 1. -/
theorem closeness_normalized_exceeds_one :
    (topOf [0, 1] ≠ [] ∧ bottomOf G3 [0, 1] ≠ [] ∧
      ∀ v ∈ ([0, 1] : List Nat), v ∈ G3.nodes) ∧
    dictGet (bipartite_closeness_centrality G3 [0, 1] true) 0 = some (3 / 2) ∧
    ¬ ((3 : ℚ) / 2 ≤ 1) := by
  refine ⟨by decide, ?_, by norm_num⟩
  rw [closeness_G3_eval]; rfl

/-- Preservation of entrywise non-negativity by a single dictionary write. -/
theorem dictSet_nonneg {d : Dict} {k : Nat} {v : ℚ}
    (hd : ∀ q ∈ d, 0 ≤ q.2) (hv : 0 ≤ v) :
    ∀ q ∈ dictSet d k v, 0 ≤ q.2 := by
  intro q hq
  rcases mem_dictSet hq with h | h
  · exact hd q h
  · rw [h]; exact hv

/-- The value stored by a non-fallback closeness step is non-negative. -/
theorem closeness_step_val_nonneg (normalized : Bool)
    {num totspQ spLenQ gsizeQ : ℚ}
    (hnum : 0 ≤ num) (htot : 0 < totspQ) (hsp : 1 ≤ spLenQ) (hg : 1 ≤ gsizeQ) :
    0 ≤ (if normalized then (num / totspQ) * ((spLenQ - 1) / (gsizeQ - 1))
      else num / totspQ) := by
  split
  · exact mul_nonneg (div_nonneg hnum htot.le)
      (div_nonneg (by linarith) (by linarith))
  · exact div_nonneg hnum htot.le

/-- C3 (amended): for every graph, node container and `normalized` flag, every
score in the mapping returned by closeness centrality is ≥ 0.  (The original
claim's `[0, 1]` bound for `normalized = true` fails on disconnected graphs —
see the counterexample — but non-negativity always holds.) -/
theorem closeness_centrality_nonneg (G : Graph) (nodes : List Nat)
    (normalized : Bool) (k : Nat) (val : ℚ)
    (h : dictGet (bipartite_closeness_centrality G nodes normalized) k = some val) :
    0 ≤ val := by
  have hP : ∀ q ∈ bipartite_closeness_centrality G nodes normalized, 0 ≤ q.2 := by
    simp only [bipartite_closeness_centrality]
    refine foldl_inv (fun d => ∀ q ∈ d, 0 ≤ q.2) _ _ ?_ ?_
    · intro d x hx hd
      by_cases hc : 0 < spSum (single_source_shortest_path_length G x) ∧ 1 < G.size
      · rw [if_pos hc]
        refine dictSet_nonneg hd (closeness_step_val_nonneg normalized ?_ ?_ ?_ ?_)
        · have h1 : (0 : ℚ) ≤ ((topOf nodes).length : ℚ) := Nat.cast_nonneg _
          have h2 : (1 : ℚ) ≤ ((bottomOf G nodes).length : ℚ) :=
            Nat.one_le_cast.mpr (List.length_pos.mpr (List.ne_nil_of_mem hx))
          linarith
        · exact_mod_cast hc.1
        · exact_mod_cast one_le_sssp_length G x
        · exact_mod_cast hc.2.le
      · rw [if_neg hc]
        exact dictSet_nonneg hd le_rfl
    · refine foldl_inv (fun d => ∀ q ∈ d, 0 ≤ q.2) _ _ ?_ ?_
      · intro d x hx hd
        by_cases hc : 0 < spSum (single_source_shortest_path_length G x) ∧ 1 < G.size
        · rw [if_pos hc]
          refine dictSet_nonneg hd (closeness_step_val_nonneg normalized ?_ ?_ ?_ ?_)
          · have h1 : (0 : ℚ) ≤ ((bottomOf G nodes).length : ℚ) := Nat.cast_nonneg _
            have h2 : (1 : ℚ) ≤ ((topOf nodes).length : ℚ) :=
              Nat.one_le_cast.mpr (List.length_pos.mpr (List.ne_nil_of_mem hx))
            linarith
          · exact_mod_cast hc.1
          · exact_mod_cast one_le_sssp_length G x
          · exact_mod_cast hc.2.le
        · rw [if_neg hc]
          exact dictSet_nonneg hd le_rfl
      · intro q hq
        simp at hq
  exact hP (k, val) (dictGet_mem h)

/-- C3 (witness for the amended theorem): the score 3/2 that `G3` assigns to
node 0 is indeed non-negative. -/
theorem closeness_centrality_nonneg_w : (0 : ℚ) ≤ 3 / 2 :=
  closeness_centrality_nonneg G3 [0, 1] true 0 (3 / 2)
    (by rw [closeness_G3_eval]; rfl)

/-! ### Claim C5 -/

/-- If a fold writes `w` at key `v` when it processes `v` and never touches
key `v` while processing other elements, the folded dictionary holds `w`
at `v`. -/
theorem dictGet_foldl_write (f : Dict → Nat → Dict) (l : List Nat) (v : Nat)
    (w : ℚ) (d0 : Dict) (hv : v ∈ l) (hnd : l.Nodup)
    (hself : ∀ d, dictGet (f d v) v = some w)
    (hother : ∀ d x, x ∈ l → x ≠ v → dictGet (f d x) v = dictGet d v) :
    dictGet (l.foldl f d0) v = some w := by
  obtain ⟨l1, l2, rfl⟩ := List.append_of_mem hv
  have hv2 : v ∉ l2 := (List.nodup_cons.mp hnd.of_append_right).1
  rw [List.foldl_append, List.foldl_cons]
  rw [dictGet_foldl_frozen l2 _ (fun d x hx =>
    hother d x (List.mem_append.mpr (Or.inr (List.mem_cons_of_mem _ hx)))
      (fun hc => hv2 (hc ▸ hx)))]
  exact hself _

/-- C5 (amended): for every node `v` with positive total shortest-path
distance in a graph with more than one node, provided `v ≠ |Top|` — the key
that the defective zero-total-distance fallback writes to (see C1), which can
otherwise clobber `v`'s entry — the returned mapping at `v`'s own key equals
the raw score `(m + 2(n-1)) / totalDistance` when `v ∈ Top` (resp.
`(n + 2(m-1)) / totalDistance` when `v ∈ Bottom`), further multiplied by
`(reachableCount - 1) / (|G| - 1)` when `normalized` is true. -/
theorem closeness_centrality_formula (G : Graph) (nodes : List Nat)
    (normalized : Bool) (v : Nat)
    (hne : v ≠ (topOf nodes).length)
    (htot : 0 < spSum (single_source_shortest_path_length G v))
    (hsize : 1 < G.size) :
    (v ∈ topOf nodes →
      dictGet (bipartite_closeness_centrality G nodes normalized) v =
        some (if normalized then
          ((((bottomOf G nodes).length : ℚ) + 2 * (((topOf nodes).length : ℚ) - 1)) /
              (spSum (single_source_shortest_path_length G v) : ℚ)) *
            ((((single_source_shortest_path_length G v).length : ℚ) - 1) /
              ((G.size : ℚ) - 1))
        else
          (((bottomOf G nodes).length : ℚ) + 2 * (((topOf nodes).length : ℚ) - 1)) /
            (spSum (single_source_shortest_path_length G v) : ℚ))) ∧
    (v ∈ bottomOf G nodes →
      dictGet (bipartite_closeness_centrality G nodes normalized) v =
        some (if normalized then
          ((((topOf nodes).length : ℚ) + 2 * (((bottomOf G nodes).length : ℚ) - 1)) /
              (spSum (single_source_shortest_path_length G v) : ℚ)) *
            ((((single_source_shortest_path_length G v).length : ℚ) - 1) /
              ((G.size : ℚ) - 1))
        else
          (((topOf nodes).length : ℚ) + 2 * (((bottomOf G nodes).length : ℚ) - 1)) /
            (spSum (single_source_shortest_path_length G v) : ℚ))) := by
  have hguard : 0 < spSum (single_source_shortest_path_length G v) ∧ 1 < G.size :=
    ⟨htot, hsize⟩
  constructor
  · intro hv
    simp only [bipartite_closeness_centrality]
    refine (dictGet_foldl_frozen _ _ ?_).trans ?_
    · intro d x hx
      have hxv : x ≠ v := fun hc => (mem_bottomOf.mp hx).2 (hc ▸ hv)
      by_cases hc : 0 < spSum (single_source_shortest_path_length G x) ∧ 1 < G.size
      · rw [if_pos hc]; exact dictGet_dictSet_ne _ _ (Ne.symm hxv)
      · rw [if_neg hc]; exact dictGet_dictSet_ne _ _ hne
    · apply dictGet_foldl_write _ _ _ _ _ hv (topOf_nodup nodes)
      · intro d
        rw [if_pos hguard, dictGet_dictSet_self]
      · intro d x hx hxv
        by_cases hc : 0 < spSum (single_source_shortest_path_length G x) ∧ 1 < G.size
        · rw [if_pos hc]; exact dictGet_dictSet_ne _ _ (Ne.symm hxv)
        · rw [if_neg hc]; exact dictGet_dictSet_ne _ _ hne
  · intro hv
    simp only [bipartite_closeness_centrality]
    apply dictGet_foldl_write _ _ _ _ _ hv (bottomOf_nodup G nodes)
    · intro d
      rw [if_pos hguard, dictGet_dictSet_self]
    · intro d x hx hxv
      by_cases hc : 0 < spSum (single_source_shortest_path_length G x) ∧ 1 < G.size
      · rw [if_pos hc]; exact dictGet_dictSet_ne _ _ (Ne.symm hxv)
      · rw [if_neg hc]; exact dictGet_dictSet_ne _ _ hne

theorem top_02 : topOf [0, 2] = [0, 2] := by decide

theorem bottom_Gp : bottomOf Gp [0, 2] = [1, 3] := by decide

theorem size_Gp : Gp.size = 4 := by decide

theorem ssp_Gp_0 :
    single_source_shortest_path_length Gp 0 = [(0, 0), (1, 1), (2, 2), (3, 3)] := by
  decide

/-- C5 (witness for the amended theorem, the spec's own `A-X-B-Y` scenario):
on the path 0-1-2-3 with Top = {0, 2}, node 0 has total distance 6 and the
normalized score (2 + 2·1)/6 · 1 = 2/3. -/
theorem closeness_centrality_formula_w :
    dictGet (bipartite_closeness_centrality Gp [0, 2] true) 0 = some (2 / 3) := by
  have h := (closeness_centrality_formula Gp [0, 2] true 0 (by decide) (by decide)
    (by decide)).1 (by decide)
  rw [h]
  norm_num [top_02, bottom_Gp, size_Gp, ssp_Gp_0, spSum]

/-- C5 (counterexample to the original claim): on `G5` with the valid
partition Top = {1, 2}, node 2 lies in Top, has positive total distance 3 in
a 4-node graph, yet the returned mapping holds 0 at key 2 — not the formula
value `(m + 2(n-1))/3 · (3-1)/(4-1) = 8/9` — because the isolated Bottom
node 0 triggered the fallback write at key `|Top| = 2`. -/
theorem closeness_formula_clobbered :
    (2 : Nat) ∈ topOf [1, 2] ∧
    0 < spSum (single_source_shortest_path_length G5 2) ∧
    1 < G5.size ∧
    dictGet (bipartite_closeness_centrality G5 [1, 2] true) 2 = some 0 ∧
    ((((bottomOf G5 [1, 2]).length : ℚ) + 2 * (((topOf [1, 2]).length : ℚ) - 1)) /
        (spSum (single_source_shortest_path_length G5 2) : ℚ)) *
      ((((single_source_shortest_path_length G5 2).length : ℚ) - 1) /
        ((G5.size : ℚ) - 1)) ≠ 0 := by
  refine ⟨by decide, by decide, by decide, ?_, ?_⟩
  · rw [closeness_G5_eval]; rfl
  · norm_num [top_12, bottom_G5, size_G5, ssp_G5_2, spSum]

/-! ### Claim C10 -/

/-- The closeness function is exactly `closeness_loops` run on the iteration
orders that the canonical set model (`pySet`, sorted order) produces; a `rfl`
because `closeness_loops` is the verbatim loop body of the source. -/
theorem closeness_centrality_eq_loops (G : Graph) (nodes : List Nat)
    (normalized : Bool) :
    bipartite_closeness_centrality G nodes normalized =
      closeness_loops G (topOf nodes) (bottomOf G nodes) normalized := rfl

theorem top_210 : topOf [2, 10] = [2, 10] := by decide

theorem bottom_Gc : bottomOf Gc [2, 10] = [3] := by decide

theorem size_Gc : Gc.size = 3 := by decide

theorem ssp_Gc_2 : single_source_shortest_path_length Gc 2 = [(2, 0), (3, 1)] := by
  decide

theorem ssp_Gc_3 : single_source_shortest_path_length Gc 3 = [(3, 0), (2, 1)] := by
  decide

theorem ssp_Gc_10 : single_source_shortest_path_length Gc 10 = [(10, 0)] := by
  decide

/-- The closeness loops on `Gc` with Top iterated as [2, 10]: node 2's score
3/2 is written first and then clobbered by isolated node 10's fallback write
at key `len(top) = 2`. -/
theorem closeness_loops_Gc_a :
    closeness_loops Gc [2, 10] [3] true = [(2, 0), (3, 1)] := by
  norm_num [closeness_loops, size_Gc, ssp_Gc_2, ssp_Gc_3, ssp_Gc_10, spSum,
    dictSet]

/-- The closeness loops on `Gc` with Top iterated as [10, 2]: the fallback
write lands first and node 2's own score 3/2 survives. -/
theorem closeness_loops_Gc_b :
    closeness_loops Gc [10, 2] [3] true = [(2, 3 / 2), (3, 1)] := by
  norm_num [closeness_loops, size_Gc, ssp_Gc_2, ssp_Gc_3, ssp_Gc_10, spSum,
    dictSet]

/-- C10 (counterexample): the claim — that the output depends only on the
element set of `nodes` — is false of the program, because `set(nodes)` fixes
no canonical iteration order: CPython iterates the set {2, 10} as [2, 10] or
as [10, 2] depending on which container built it.  Running the source's
closeness loops (by `closeness_centrality_eq_loops` exactly the program's
code after `set(nodes)` is materialized; the canonical model's own call on
container [2, 10] coincides with the first order) over these two orders of
the same duplicate-free element set yields different mappings on `Gc`:
node 2 scores 0 in one order and 3/2 in the other, because isolated node 10's
zero-distance fallback write at key `len(top) = 2` (the C1 defect) clobbers
node 2's entry only when node 10 is processed after node 2. -/
theorem closeness_set_order_dependent :
    ([2, 10] : List Nat).toFinset = ([10, 2] : List Nat).toFinset ∧
    ([2, 10] : List Nat).Nodup ∧ ([10, 2] : List Nat).Nodup ∧
    bipartite_closeness_centrality Gc [2, 10] true =
      closeness_loops Gc [2, 10] [3] true ∧
    dictGet (closeness_loops Gc [2, 10] [3] true) 2 = some 0 ∧
    dictGet (closeness_loops Gc [10, 2] [3] true) 2 = some (3 / 2) ∧
    closeness_loops Gc [2, 10] [3] true ≠ closeness_loops Gc [10, 2] [3] true := by
  refine ⟨by decide, by decide, by decide, ?_, ?_, ?_, ?_⟩
  · rw [closeness_centrality_eq_loops, top_210, bottom_Gc]
  · rw [closeness_loops_Gc_a]; rfl
  · rw [closeness_loops_Gc_b]; rfl
  · rw [closeness_loops_Gc_a, closeness_loops_Gc_b]
    norm_num

/-- Membership-based characterization of the closeness loops when the
zero-distance fallback never fires: every step writes its own key with a
value that depends only on the node and the two set sizes. -/
theorem closeness_loops_get (G : Graph) (t b : List Nat) (normalized : Bool)
    (htn : t.Nodup) (hbn : b.Nodup) (hdisj : ∀ x ∈ t, x ∉ b)
    (hguard : ∀ x ∈ t ++ b,
      0 < spSum (single_source_shortest_path_length G x) ∧ 1 < G.size)
    (k : Nat) :
    dictGet (closeness_loops G t b normalized) k =
      if k ∈ t then
        some (closenessVal G ((b.length : ℚ) + 2 * ((t.length : ℚ) - 1))
          normalized k)
      else if k ∈ b then
        some (closenessVal G ((t.length : ℚ) + 2 * ((b.length : ℚ) - 1))
          normalized k)
      else none := by
  have hgt : ∀ x ∈ t,
      0 < spSum (single_source_shortest_path_length G x) ∧ 1 < G.size :=
    fun x hx => hguard x (List.mem_append_left _ hx)
  have hgb : ∀ x ∈ b,
      0 < spSum (single_source_shortest_path_length G x) ∧ 1 < G.size :=
    fun x hx => hguard x (List.mem_append_right _ hx)
  by_cases hkt : k ∈ t
  · rw [if_pos hkt]
    simp only [closeness_loops]
    refine (dictGet_foldl_frozen _ _ ?_).trans ?_
    · intro d x hx
      rw [if_pos (hgb x hx)]
      exact dictGet_dictSet_ne _ _ (fun hc => hdisj k hkt (hc ▸ hx))
    · apply dictGet_foldl_write _ _ _ _ _ hkt htn
      · intro d
        rw [if_pos (hgt k hkt), dictGet_dictSet_self]
        rfl
      · intro d x hx hxk
        rw [if_pos (hgt x hx)]
        exact dictGet_dictSet_ne _ _ (Ne.symm hxk)
  · rw [if_neg hkt]
    by_cases hkb : k ∈ b
    · rw [if_pos hkb]
      simp only [closeness_loops]
      apply dictGet_foldl_write _ _ _ _ _ hkb hbn
      · intro d
        rw [if_pos (hgb k hkb), dictGet_dictSet_self]
        rfl
      · intro d x hx hxk
        rw [if_pos (hgb x hx)]
        exact dictGet_dictSet_ne _ _ (Ne.symm hxk)
    · rw [if_neg hkb]
      simp only [closeness_loops]
      refine (dictGet_foldl_frozen _ _ ?_).trans ?_
      · intro d x hx
        rw [if_pos (hgb x hx)]
        exact dictGet_dictSet_ne _ _ (fun hc => hkb (hc ▸ hx))
      · refine (dictGet_foldl_frozen _ _ ?_).trans ?_
        · intro d x hx
          rw [if_pos (hgt x hx)]
          exact dictGet_dictSet_ne _ _ (fun hc => hkt (hc ▸ hx))
        · rfl

/-- C10 (amended): the result does not depend only on the element set of
`nodes` — it can also depend on the iteration order CPython gives the set,
which the counterexample's fallback clobbering makes observable.  What does
hold: for any two duplicate-free iteration orders of the same Top element set
and the same Bottom element set (Top and Bottom disjoint), if every node in
them has positive total shortest-path distance in a graph with more than one
node — so the defective zero-distance fallback never fires — the closeness
loops return identical mappings. -/
theorem closeness_loops_set_invariant (G : Graph) (t1 t2 b1 b2 : List Nat)
    (normalized : Bool)
    (ht1 : t1.Nodup) (ht2 : t2.Nodup) (hb1 : b1.Nodup) (hb2 : b2.Nodup)
    (hteq : t1.toFinset = t2.toFinset) (hbeq : b1.toFinset = b2.toFinset)
    (hdisj : ∀ x ∈ t1, x ∉ b1)
    (hguard : ∀ x ∈ t1 ++ b1,
      0 < spSum (single_source_shortest_path_length G x) ∧ 1 < G.size) :
    ∀ k, dictGet (closeness_loops G t1 b1 normalized) k =
      dictGet (closeness_loops G t2 b2 normalized) k := by
  have hteq' : ∀ x, x ∈ t1 ↔ x ∈ t2 := fun x => by
    rw [← List.mem_toFinset, hteq, List.mem_toFinset]
  have hbeq' : ∀ x, x ∈ b1 ↔ x ∈ b2 := fun x => by
    rw [← List.mem_toFinset, hbeq, List.mem_toFinset]
  have hpt : List.Perm t1 t2 := by
    have hp := List.toFinset_eq_iff_perm_dedup.mp hteq
    rwa [ht1.dedup, ht2.dedup] at hp
  have hpb : List.Perm b1 b2 := by
    have hp := List.toFinset_eq_iff_perm_dedup.mp hbeq
    rwa [hb1.dedup, hb2.dedup] at hp
  have hlt : t1.length = t2.length := hpt.length_eq
  have hlb : b1.length = b2.length := hpb.length_eq
  have hdisj2 : ∀ x ∈ t2, x ∉ b2 := fun x hx hxb =>
    hdisj x ((hteq' x).mpr hx) ((hbeq' x).mpr hxb)
  have hguard2 : ∀ x ∈ t2 ++ b2,
      0 < spSum (single_source_shortest_path_length G x) ∧ 1 < G.size := by
    intro x hx
    rcases List.mem_append.mp hx with hx | hx
    · exact hguard x (List.mem_append_left _ ((hteq' x).mpr hx))
    · exact hguard x (List.mem_append_right _ ((hbeq' x).mpr hx))
  intro k
  rw [closeness_loops_get G t1 b1 normalized ht1 hb1 hdisj hguard k,
    closeness_loops_get G t2 b2 normalized ht2 hb2 hdisj2 hguard2 k, hlt, hlb]
  by_cases hkt : k ∈ t1
  · rw [if_pos hkt, if_pos ((hteq' k).mp hkt)]
  · rw [if_neg hkt, if_neg (fun hc => hkt ((hteq' k).mpr hc))]
    by_cases hkb : k ∈ b1
    · rw [if_pos hkb, if_pos ((hbeq' k).mp hkb)]
    · rw [if_neg hkb, if_neg (fun hc => hkb ((hbeq' k).mpr hc))]

/-- C10 (witness for the amended theorem): on the connected path `Gp` — no
isolated nodes, so no fallback — the orders [0, 2]/[1, 3] and [2, 0]/[3, 1]
of the same Top and Bottom sets give pointwise-identical closeness
mappings. -/
theorem closeness_loops_set_invariant_w :
    dictGet (closeness_loops Gp [0, 2] [1, 3] true) 0 =
      dictGet (closeness_loops Gp [2, 0] [3, 1] true) 0 :=
  closeness_loops_set_invariant Gp [0, 2] [2, 0] [1, 3] [3, 1] true
    (by decide) (by decide) (by decide) (by decide) (by decide) (by decide)
    (by decide) (by decide) 0

/-! ### Claim C4 -/

theorem mem_nodeSet {G : Graph} {a : Nat} : a ∈ G.nodeSet ↔ a ∈ G.nodes :=
  mem_pySet

/-- Iterating degrees over a container of graph nodes skips nothing. -/
theorem degree_iter_eq (G : Graph) (l : List Nat) (h : ∀ v ∈ l, v ∈ G.nodeSet) :
    degree_iter G l = l.map (fun v => (v, G.degree v)) := by
  unfold degree_iter
  rw [List.filter_eq_self.mpr (fun a ha => by simpa using h a ha)]

/-- Full characterization of the degree-centrality result on a valid
partition: the call succeeds, each Top node scores `degree(v)/m`, each Bottom
node scores `degree(v)/n`, every key with a value is in Top or Bottom with
the respective formula, and every graph node is covered. -/
theorem degree_centrality_spec (G : Graph) (nodes : List Nat)
    (htop : topOf nodes ≠ []) (hbot : bottomOf G nodes ≠ [])
    (hsub : ∀ v ∈ nodes, v ∈ G.nodes) :
    ∃ D, bipartite_degree_centrality G nodes = Except.ok D ∧
      (∀ v ∈ topOf nodes,
        dictGet D v = some ((G.degree v : ℚ) / ((bottomOf G nodes).length : ℚ))) ∧
      (∀ v ∈ bottomOf G nodes,
        dictGet D v = some ((G.degree v : ℚ) / ((topOf nodes).length : ℚ))) ∧
      (∀ k val, dictGet D k = some val →
        (k ∈ topOf nodes ∧
          val = (G.degree k : ℚ) * (1 / ((bottomOf G nodes).length : ℚ))) ∨
        (k ∈ bottomOf G nodes ∧
          val = (G.degree k : ℚ) * (1 / ((topOf nodes).length : ℚ)))) ∧
      (∀ v ∈ G.nodeSet, (dictGet D v).isSome) := by
  have hmb : ((bottomOf G nodes).length : ℚ) ≠ 0 :=
    Nat.cast_ne_zero.mpr (fun hc => hbot (List.length_eq_zero.mp hc))
  have hmt : ((topOf nodes).length : ℚ) ≠ 0 :=
    Nat.cast_ne_zero.mpr (fun hc => htop (List.length_eq_zero.mp hc))
  have htf : degree_iter G (topOf nodes) = (topOf nodes).map (fun v => (v, G.degree v)) :=
    degree_iter_eq G _ (fun v hv => mem_nodeSet.mpr (hsub v (mem_topOf.mp hv)))
  have hbf : degree_iter G (bottomOf G nodes) =
      (bottomOf G nodes).map (fun v => (v, G.degree v)) :=
    degree_iter_eq G _ (fun v hv => (mem_bottomOf.mp hv).1)
  have heq : bipartite_degree_centrality G nodes = Except.ok
      (dictUpdateMany
        (dictOfPairs ((topOf nodes).map (fun v =>
          (v, (G.degree v : ℚ) * (1 / ((bottomOf G nodes).length : ℚ))))))
        ((bottomOf G nodes).map (fun v =>
          (v, (G.degree v : ℚ) * (1 / ((topOf nodes).length : ℚ)))))) := by
    simp [bipartite_degree_centrality, pyDiv, hmb, hmt, okBind, htf, hbf,
      List.map_map]
    rfl
  have hkeys_t : ((topOf nodes).map (fun v =>
      (v, (G.degree v : ℚ) * (1 / ((bottomOf G nodes).length : ℚ))))).map Prod.fst =
      topOf nodes := by
    rw [List.map_map]
    exact List.map_id _
  have hkeys_b : ((bottomOf G nodes).map (fun v =>
      (v, (G.degree v : ℚ) * (1 / ((topOf nodes).length : ℚ))))).map Prod.fst =
      bottomOf G nodes := by
    rw [List.map_map]
    exact List.map_id _
  have hT : ∀ v ∈ topOf nodes,
      dictGet (dictUpdateMany
        (dictOfPairs ((topOf nodes).map (fun v =>
          (v, (G.degree v : ℚ) * (1 / ((bottomOf G nodes).length : ℚ))))))
        ((bottomOf G nodes).map (fun v =>
          (v, (G.degree v : ℚ) * (1 / ((topOf nodes).length : ℚ)))))) v =
      some ((G.degree v : ℚ) / ((bottomOf G nodes).length : ℚ)) := by
    intro v hv
    have hnb : v ∉ ((bottomOf G nodes).map (fun v =>
        (v, (G.degree v : ℚ) * (1 / ((topOf nodes).length : ℚ))))).map Prod.fst := by
      rw [hkeys_b]
      exact fun hc => (mem_bottomOf.mp hc).2 hv
    rw [dictGet_updateMany_notMem hnb, dictOfPairs,
      dictGet_updateMany_mem (by rw [hkeys_t]; exact topOf_nodup nodes)
        (List.mem_map.mpr ⟨v, hv, rfl⟩), mul_one_div]
  have hB : ∀ v ∈ bottomOf G nodes,
      dictGet (dictUpdateMany
        (dictOfPairs ((topOf nodes).map (fun v =>
          (v, (G.degree v : ℚ) * (1 / ((bottomOf G nodes).length : ℚ))))))
        ((bottomOf G nodes).map (fun v =>
          (v, (G.degree v : ℚ) * (1 / ((topOf nodes).length : ℚ)))))) v =
      some ((G.degree v : ℚ) / ((topOf nodes).length : ℚ)) := by
    intro v hv
    rw [dictGet_updateMany_mem (by rw [hkeys_b]; exact bottomOf_nodup G nodes)
      (List.mem_map.mpr ⟨v, hv, rfl⟩), mul_one_div]
  refine ⟨_, heq, hT, hB, ?_, ?_⟩
  · intro k val hk
    have hkd := dictGet_mem hk
    rcases mem_updateMany hkd with h | h
    · rcases mem_updateMany h with h' | h'
      · simp at h'
      · rcases List.mem_map.mp h' with ⟨v, hv, hEq⟩
        have h1 : v = k := congrArg Prod.fst hEq
        have h2 : (G.degree v : ℚ) * (1 / ((bottomOf G nodes).length : ℚ)) = val :=
          congrArg Prod.snd hEq
        subst h1
        exact Or.inl ⟨hv, h2.symm⟩
    · rcases List.mem_map.mp h with ⟨v, hv, hEq⟩
      have h1 : v = k := congrArg Prod.fst hEq
      have h2 : (G.degree v : ℚ) * (1 / ((topOf nodes).length : ℚ)) = val :=
        congrArg Prod.snd hEq
      subst h1
      exact Or.inr ⟨hv, h2.symm⟩
  · intro v hv
    by_cases hvt : v ∈ topOf nodes
    · rw [hT v hvt]; rfl
    · rw [hB v (mem_bottomOf.mpr ⟨hv, hvt⟩)]; rfl

/-- C4: for every graph and valid partition with `n = |Top|`, `m = |Bottom|`,
degree centrality returns a mapping covering every node of the graph in which
each `v ∈ Top` scores `degree(v) / m` and each `v ∈ Bottom` scores
`degree(v) / n`. -/
theorem degree_centrality_formula (G : Graph) (nodes : List Nat)
    (htop : topOf nodes ≠ []) (hbot : bottomOf G nodes ≠ [])
    (hsub : ∀ v ∈ nodes, v ∈ G.nodes) :
    ∃ D, bipartite_degree_centrality G nodes = Except.ok D ∧
      (∀ v ∈ topOf nodes,
        dictGet D v = some ((G.degree v : ℚ) / ((bottomOf G nodes).length : ℚ))) ∧
      (∀ v ∈ bottomOf G nodes,
        dictGet D v = some ((G.degree v : ℚ) / ((topOf nodes).length : ℚ))) ∧
      (∀ v ∈ G.nodeSet, (dictGet D v).isSome) := by
  obtain ⟨D, hD, hT, hB, _, hAll⟩ := degree_centrality_spec G nodes htop hbot hsub
  exact ⟨D, hD, hT, hB, hAll⟩

/-! ### Claims C6 and C7 -/

/-- If the divisor is non-zero and every key to be processed is present, the
loop `for node in l: bet[node] /= c` succeeds, divides exactly the entries
with keys in `l` and leaves the rest unchanged. -/
theorem divLoop_spec {c : ℚ} (hc : c ≠ 0) :
    ∀ (l : List Nat), l.Nodup → ∀ (bet : Dict),
      (∀ v ∈ l, (dictGet bet v).isSome) →
      ∃ d, divLoop c l bet = Except.ok d ∧
        ∀ k, dictGet d k = if k ∈ l
          then Option.map (fun x => x / c) (dictGet bet k) else dictGet bet k := by
  intro l
  induction l with
  | nil =>
    intro _ bet _
    exact ⟨bet, rfl, fun k => by simp⟩
  | cons node rest ih =>
    intro hnd bet hcov
    obtain ⟨old, hold⟩ :=
      Option.isSome_iff_exists.mp (hcov node (List.mem_cons_self _ _))
    have hnodup := List.nodup_cons.mp hnd
    have hcov' : ∀ v ∈ rest, (dictGet (dictSet bet node (old / c)) v).isSome :=
      fun v hv => isSome_dictGet_dictSet _ _ _ _ (hcov v (List.mem_cons_of_mem _ hv))
    obtain ⟨d, hd, hprop⟩ := ih hnodup.2 (dictSet bet node (old / c)) hcov'
    refine ⟨d, ?_, ?_⟩
    · simp only [divLoop, hold, pyDiv, if_neg hc]
      exact hd
    · intro k
      rw [hprop k]
      by_cases hk : k = node
      · subst hk
        rw [if_neg hnodup.1, if_pos (List.mem_cons_self _ _),
          dictGet_dictSet_self, hold]
        rfl
      · by_cases hkr : k ∈ rest
        · rw [if_pos hkr, if_pos (List.mem_cons_of_mem _ hkr),
            dictGet_dictSet_ne _ _ hk]
        · rw [if_neg hkr, if_neg (fun hc' => by
            rcases List.mem_cons.mp hc' with h | h
            · exact hk h
            · exact hkr h), dictGet_dictSet_ne _ _ hk]

/-- Dividing a dictionary entry by the float zero raises `ZeroDivisionError`
at the first node of the loop. -/
theorem divLoop_zero {bet : Dict} {node : Nat} {rest : List Nat}
    (hcov : (dictGet bet node).isSome) :
    divLoop 0 (node :: rest) bet = Except.error PyErr.zeroDivision := by
  obtain ⟨old, hold⟩ := Option.isSome_iff_exists.mp hcov
  simp [divLoop, hold, pyDiv]

/-- C6: betweenness centrality computes the two normalization constants given
by the spec's closed formulas (`betMaxTop`, `betMaxBot` — with
`s = floor((n-1)/m)`, `t = (n-1) mod m` and symmetrically `p`, `r`) and
returns, for every node, the raw betweenness value divided by the constant of
that node's side. -/
theorem betweenness_centrality_normalization (raw : Graph → Dict) (G : Graph)
    (nodes : List Nat)
    (htop : topOf nodes ≠ []) (hbot : bottomOf G nodes ≠ [])
    (hsub : ∀ v ∈ nodes, v ∈ G.nodes)
    (hcov : ∀ v ∈ G.nodeSet, (dictGet (raw G) v).isSome)
    (hmt : betMaxTop G nodes ≠ 0) (hmb : betMaxBot G nodes ≠ 0) :
    ∃ D, bipartite_betweenness_centrality raw G nodes = Except.ok D ∧
      (∀ v ∈ topOf nodes, ∀ x, dictGet (raw G) v = some x →
        dictGet D v = some (x / betMaxTop G nodes)) ∧
      (∀ v ∈ bottomOf G nodes, ∀ x, dictGet (raw G) v = some x →
        dictGet D v = some (x / betMaxBot G nodes)) := by
  have hn : ((topOf nodes).length : ℚ) ≠ 0 :=
    Nat.cast_ne_zero.mpr (fun hc => htop (List.length_eq_zero.mp hc))
  have hm : ((bottomOf G nodes).length : ℚ) ≠ 0 :=
    Nat.cast_ne_zero.mpr (fun hc => hbot (List.length_eq_zero.mp hc))
  have hunf : bipartite_betweenness_centrality raw G nodes =
      (divLoop (betMaxTop G nodes) (topOf nodes) (raw G) >>= fun b1 =>
        (divLoop (betMaxBot G nodes) (bottomOf G nodes) b1 >>= fun b2 =>
          Except.ok b2)) := by
    simp only [bipartite_betweenness_centrality, betMaxTop, betMaxBot,
      pyFloorDiv, pyMod, if_neg hn, if_neg hm, okBind]
    rfl
  obtain ⟨d1, hd1, hp1⟩ := divLoop_spec hmt (topOf nodes) (topOf_nodup nodes)
    (raw G) (fun v hv => hcov v (mem_nodeSet.mpr (hsub v (mem_topOf.mp hv))))
  have hcov2 : ∀ v ∈ bottomOf G nodes, (dictGet d1 v).isSome := by
    intro v hv
    rw [hp1 v, if_neg (mem_bottomOf.mp hv).2]
    exact hcov v (mem_bottomOf.mp hv).1
  obtain ⟨d2, hd2, hp2⟩ := divLoop_spec hmb (bottomOf G nodes)
    (bottomOf_nodup G nodes) d1 hcov2
  refine ⟨d2, ?_, ?_, ?_⟩
  · rw [hunf]
    simp only [hd1, okBind, hd2]
  · intro v hv x hx
    rw [hp2 v, if_neg (fun hc => (mem_bottomOf.mp hc).2 hv), hp1 v, if_pos hv, hx]
    rfl
  · intro v hv x hx
    rw [hp2 v, if_pos hv, hp1 v, if_neg (mem_bottomOf.mp hv).2, hx]
    rfl

theorem top_0 : topOf [0] = [0] := by decide

theorem bottom_G2_0 : bottomOf G2 [0] = [1] := by decide

theorem betMaxTop_Gp : betMaxTop Gp [0, 2] = 2 := by
  norm_num [betMaxTop, top_02, bottom_Gp]

theorem betMaxBot_Gp : betMaxBot Gp [0, 2] = 2 := by
  norm_num [betMaxBot, top_02, bottom_Gp]

/-- C6 (witness): on the path `Gp` with Top = {0, 2} (where both constants
equal 2) the hypotheses hold and the rescaling applies to the sample raw
mapping `rawP`. -/
theorem betweenness_centrality_normalization_w :
    ∃ D, bipartite_betweenness_centrality rawP Gp [0, 2] = Except.ok D ∧
      (∀ v ∈ topOf [0, 2], ∀ x, dictGet (rawP Gp) v = some x →
        dictGet D v = some (x / betMaxTop Gp [0, 2])) ∧
      (∀ v ∈ bottomOf Gp [0, 2], ∀ x, dictGet (rawP Gp) v = some x →
        dictGet D v = some (x / betMaxBot Gp [0, 2])) :=
  betweenness_centrality_normalization rawP Gp [0, 2] (by decide) (by decide)
    (by decide) (by decide) (by rw [betMaxTop_Gp]; norm_num)
    (by rw [betMaxBot_Gp]; norm_num)

/-- C7: betweenness centrality fails (with the division-by-zero error that
models the spec's `DegenerateNormalization`) whenever either computed
normalization maximum is zero — for example when `|Top| = |Bottom| = 1`. -/
theorem betweenness_centrality_degenerate (raw : Graph → Dict) (G : Graph)
    (nodes : List Nat)
    (htop : topOf nodes ≠ []) (hbot : bottomOf G nodes ≠ [])
    (hsub : ∀ v ∈ nodes, v ∈ G.nodes)
    (hcov : ∀ v ∈ G.nodeSet, (dictGet (raw G) v).isSome)
    (hz : betMaxTop G nodes = 0 ∨ betMaxBot G nodes = 0) :
    bipartite_betweenness_centrality raw G nodes = Except.error PyErr.zeroDivision := by
  have hn : ((topOf nodes).length : ℚ) ≠ 0 :=
    Nat.cast_ne_zero.mpr (fun hc => htop (List.length_eq_zero.mp hc))
  have hm : ((bottomOf G nodes).length : ℚ) ≠ 0 :=
    Nat.cast_ne_zero.mpr (fun hc => hbot (List.length_eq_zero.mp hc))
  have hunf : bipartite_betweenness_centrality raw G nodes =
      (divLoop (betMaxTop G nodes) (topOf nodes) (raw G) >>= fun b1 =>
        (divLoop (betMaxBot G nodes) (bottomOf G nodes) b1 >>= fun b2 =>
          Except.ok b2)) := by
    simp only [bipartite_betweenness_centrality, betMaxTop, betMaxBot,
      pyFloorDiv, pyMod, if_neg hn, if_neg hm, okBind]
    rfl
  by_cases hmt0 : betMaxTop G nodes = 0
  · obtain ⟨node, rest, hlr⟩ : ∃ node rest, topOf nodes = node :: rest := by
      cases h : topOf nodes with
      | nil => exact absurd h htop
      | cons a l => exact ⟨a, l, rfl⟩
    have hnode : (dictGet (raw G) node).isSome :=
      hcov node (mem_nodeSet.mpr (hsub node (mem_topOf.mp (hlr ▸ List.mem_cons_self _ _))))
    rw [hunf, hmt0, hlr, divLoop_zero hnode]
    rfl
  · have hzb : betMaxBot G nodes = 0 := hz.resolve_left hmt0
    obtain ⟨d1, hd1, hp1⟩ := divLoop_spec hmt0 (topOf nodes) (topOf_nodup nodes)
      (raw G) (fun v hv => hcov v (mem_nodeSet.mpr (hsub v (mem_topOf.mp hv))))
    have hcov2 : ∀ v ∈ bottomOf G nodes, (dictGet d1 v).isSome := by
      intro v hv
      rw [hp1 v, if_neg (mem_bottomOf.mp hv).2]
      exact hcov v (mem_bottomOf.mp hv).1
    obtain ⟨node, rest, hlr⟩ : ∃ node rest, bottomOf G nodes = node :: rest := by
      cases h : bottomOf G nodes with
      | nil => exact absurd h hbot
      | cons a l => exact ⟨a, l, rfl⟩
    have hnode : (dictGet d1 node).isSome :=
      hcov2 node (hlr ▸ List.mem_cons_self _ _)
    rw [hunf]
    simp only [hd1, okBind]
    rw [hzb, hlr, divLoop_zero hnode]
    rfl

theorem betMaxTop_G2_0 : betMaxTop G2 [0] = 0 := by
  norm_num [betMaxTop, top_0, bottom_G2_0]

/-- C7 (witness): on `G2` with Top = {0} (so `|Top| = |Bottom| = 1`,
`betMaxTop = 0`) the operation fails with the division-by-zero error. -/
theorem betweenness_centrality_degenerate_w :
    bipartite_betweenness_centrality raw2 G2 [0] = Except.error PyErr.zeroDivision :=
  betweenness_centrality_degenerate raw2 G2 [0] (by decide) (by decide)
    (by decide) (by decide) (Or.inl betMaxTop_G2_0)

/-- C4 (witness): on `G3` with Top = {0, 1} the hypotheses hold and the
formula applies. -/
theorem degree_centrality_formula_w :
    ∃ D, bipartite_degree_centrality G3 [0, 1] = Except.ok D ∧
      (∀ v ∈ topOf [0, 1],
        dictGet D v = some ((G3.degree v : ℚ) / ((bottomOf G3 [0, 1]).length : ℚ))) ∧
      (∀ v ∈ bottomOf G3 [0, 1],
        dictGet D v = some ((G3.degree v : ℚ) / ((topOf [0, 1]).length : ℚ))) ∧
      (∀ v ∈ G3.nodeSet, (dictGet D v).isSome) :=
  degree_centrality_formula G3 [0, 1] (by decide) (by decide) (by decide)

/-! ### Claims C8 and C9 -/

/-- Adjacency is symmetric. -/
theorem adj_comm (G : Graph) (a b : Nat) : G.adj a b = G.adj b a := by
  unfold Graph.adj
  exact decide_eq_decide.mpr or_comm

/-- Under the bipartite precondition, a neighbour of a Top node is not in
Top. -/
theorem adj_mem_not_top {G : Graph} {nodes : List Nat}
    (hbip : ∀ e ∈ G.edges, (e.1 ∈ topOf nodes ∧ e.2 ∉ topOf nodes) ∨
      (e.1 ∉ topOf nodes ∧ e.2 ∈ topOf nodes))
    {v u : Nat} (hv : v ∈ topOf nodes) (h : G.adj v u = true) :
    u ∉ topOf nodes := by
  unfold Graph.adj at h
  rw [decide_eq_true_eq] at h
  rcases h with h | h
  · rcases hbip _ h with h' | h'
    · exact h'.2
    · exact absurd hv h'.1
  · rcases hbip _ h with h' | h'
    · exact absurd hv h'.2
    · exact h'.1

/-- Under the bipartite precondition, a neighbour of a non-Top node is in
Top. -/
theorem adj_mem_top_of_not {G : Graph} {nodes : List Nat}
    (hbip : ∀ e ∈ G.edges, (e.1 ∈ topOf nodes ∧ e.2 ∉ topOf nodes) ∨
      (e.1 ∉ topOf nodes ∧ e.2 ∈ topOf nodes))
    {v u : Nat} (hv : v ∉ topOf nodes) (h : G.adj v u = true) :
    u ∈ topOf nodes := by
  unfold Graph.adj at h
  rw [decide_eq_true_eq] at h
  rcases h with h | h
  · rcases hbip _ h with h' | h'
    · exact absurd h'.1 hv
    · exact h'.2
  · rcases hbip _ h with h' | h'
    · exact h'.1
    · exact absurd h'.2 hv

/-- Under the bipartite precondition there are no self-loops. -/
theorem adj_self_false {G : Graph} {nodes : List Nat}
    (hbip : ∀ e ∈ G.edges, (e.1 ∈ topOf nodes ∧ e.2 ∉ topOf nodes) ∨
      (e.1 ∉ topOf nodes ∧ e.2 ∈ topOf nodes))
    (v : Nat) : G.adj v v = false := by
  unfold Graph.adj
  rw [decide_eq_false_iff_not]
  rintro (h | h) <;> rcases hbip _ h with h' | h'
  · exact h'.2 h'.1
  · exact h'.1 h'.2
  · exact h'.2 h'.1
  · exact h'.1 h'.2

/-- A Top node's degree is at most `|Bottom|`. -/
theorem degree_le_bottom {G : Graph} {nodes : List Nat}
    (hbip : ∀ e ∈ G.edges, (e.1 ∈ topOf nodes ∧ e.2 ∉ topOf nodes) ∨
      (e.1 ∉ topOf nodes ∧ e.2 ∈ topOf nodes))
    {v : Nat} (hv : v ∈ topOf nodes) :
    G.degree v ≤ (bottomOf G nodes).length := by
  have hself : G.adj v v = false := adj_self_false hbip v
  simp only [Graph.degree, Graph.nbrs, hself, Bool.false_eq_true, if_false,
    Nat.add_zero, bottomOf]
  rw [← List.countP_eq_length_filter, ← List.countP_eq_length_filter]
  exact List.countP_mono_left
    (fun u _ hadj => decide_eq_true (adj_mem_not_top hbip hv hadj))

/-- A non-Top node's degree is at most `|Top|`. -/
theorem degree_le_top {G : Graph} {nodes : List Nat}
    (hbip : ∀ e ∈ G.edges, (e.1 ∈ topOf nodes ∧ e.2 ∉ topOf nodes) ∨
      (e.1 ∉ topOf nodes ∧ e.2 ∈ topOf nodes))
    {v : Nat} (hv : v ∉ topOf nodes) :
    G.degree v ≤ (topOf nodes).length := by
  have hself : G.adj v v = false := adj_self_false hbip v
  simp only [Graph.degree, hself, Bool.false_eq_true, if_false, Nat.add_zero]
  have hnd : (G.nbrs v).Nodup := (nodeSet_nodup G).filter _
  have hsubset : G.nbrs v ⊆ topOf nodes := by
    intro u hu
    have hmf := List.mem_filter.mp hu
    exact adj_mem_top_of_not hbip hv hmf.2
  exact (hnd.subperm hsubset).length_le

/-- C8: for every graph satisfying the bipartite precondition and every valid
partition, the degree-centrality call succeeds and every returned score lies
in [0, 1]. -/
theorem degree_centrality_bounds (G : Graph) (nodes : List Nat)
    (htop : topOf nodes ≠ []) (hbot : bottomOf G nodes ≠ [])
    (hsub : ∀ v ∈ nodes, v ∈ G.nodes)
    (hbip : ∀ e ∈ G.edges, (e.1 ∈ topOf nodes ∧ e.2 ∉ topOf nodes) ∨
      (e.1 ∉ topOf nodes ∧ e.2 ∈ topOf nodes)) :
    ∃ D, bipartite_degree_centrality G nodes = Except.ok D ∧
      ∀ k val, dictGet D k = some val → 0 ≤ val ∧ val ≤ 1 := by
  obtain ⟨D, hD, _, _, hmem, _⟩ := degree_centrality_spec G nodes htop hbot hsub
  refine ⟨D, hD, ?_⟩
  intro k val hk
  have hmQ : (0 : ℚ) < ((bottomOf G nodes).length : ℚ) := by
    exact_mod_cast List.length_pos.mpr hbot
  have hnQ : (0 : ℚ) < ((topOf nodes).length : ℚ) := by
    exact_mod_cast List.length_pos.mpr htop
  rcases hmem k val hk with ⟨hkt, hval⟩ | ⟨hkb, hval⟩
  · subst hval
    constructor
    · rw [mul_one_div]
      exact div_nonneg (Nat.cast_nonneg _) hmQ.le
    · rw [mul_one_div, div_le_one hmQ]
      exact_mod_cast degree_le_bottom hbip hkt
  · subst hval
    constructor
    · rw [mul_one_div]
      exact div_nonneg (Nat.cast_nonneg _) hnQ.le
    · rw [mul_one_div, div_le_one hnQ]
      exact_mod_cast degree_le_top hbip (mem_bottomOf.mp hkb).2

/-- C8 (witness): on the bipartite graph `G3` with Top = {0, 1} all scores
are in [0, 1]. -/
theorem degree_centrality_bounds_w :
    ∃ D, bipartite_degree_centrality G3 [0, 1] = Except.ok D ∧
      ∀ k val, dictGet D k = some val → 0 ≤ val ∧ val ≤ 1 :=
  degree_centrality_bounds G3 [0, 1] (by decide) (by decide) (by decide)
    (by decide)

/-- Sum of a function over the `toFinset` of a duplicate-free list. -/
theorem sum_toFinset_of_nodup (l : List Nat) (f : Nat → Nat) (h : l.Nodup) :
    l.toFinset.sum f = (l.map f).sum := by
  induction l with
  | nil => simp
  | cons a t ih =>
    rcases List.nodup_cons.mp h with ⟨ha, ht⟩
    rw [List.toFinset_cons, Finset.sum_insert (by simpa using ha),
      List.map_cons, List.sum_cons, ih ht]

/-- Under the bipartite precondition, the degree counts exactly the adjacent
nodes of the graph. -/
theorem degree_eq_card {G : Graph} {nodes : List Nat}
    (hbip : ∀ e ∈ G.edges, (e.1 ∈ topOf nodes ∧ e.2 ∉ topOf nodes) ∨
      (e.1 ∉ topOf nodes ∧ e.2 ∈ topOf nodes))
    (v : Nat) :
    G.degree v = (G.nodeSet.toFinset.filter (fun u => G.adj v u = true)).card := by
  have hself : G.adj v v = false := adj_self_false hbip v
  have h1 : G.degree v = (G.nodeSet.filter (fun u => G.adj v u)).length := by
    simp [Graph.degree, Graph.nbrs, hself]
  rw [h1, ← List.toFinset_card_of_nodup ((nodeSet_nodup G).filter _),
    List.toFinset_filter]

/-- C9: under the bipartite precondition and a valid partition, the Top-side
degrees and the Bottom-side degrees have equal sums (each edge is counted once
from each side). -/
theorem degree_sum_balance (G : Graph) (nodes : List Nat)
    (hsub : ∀ v ∈ nodes, v ∈ G.nodes)
    (hbip : ∀ e ∈ G.edges, (e.1 ∈ topOf nodes ∧ e.2 ∉ topOf nodes) ∨
      (e.1 ∉ topOf nodes ∧ e.2 ∈ topOf nodes)) :
    ((topOf nodes).map G.degree).sum = ((bottomOf G nodes).map G.degree).sum := by
  have hT : ∀ v ∈ (topOf nodes).toFinset,
      G.nodeSet.toFinset.filter (fun u => G.adj v u = true) =
      (bottomOf G nodes).toFinset.filter (fun u => G.adj v u = true) := by
    intro v hv
    apply Finset.ext
    intro u
    simp only [Finset.mem_filter, List.mem_toFinset]
    constructor
    · rintro ⟨hu, ha⟩
      exact ⟨mem_bottomOf.mpr
        ⟨hu, adj_mem_not_top hbip (List.mem_toFinset.mp hv) ha⟩, ha⟩
    · rintro ⟨hu, ha⟩
      exact ⟨(mem_bottomOf.mp hu).1, ha⟩
  have hB : ∀ u ∈ (bottomOf G nodes).toFinset,
      G.nodeSet.toFinset.filter (fun w => G.adj u w = true) =
      (topOf nodes).toFinset.filter (fun w => G.adj u w = true) := by
    intro u hu
    apply Finset.ext
    intro w
    simp only [Finset.mem_filter, List.mem_toFinset]
    constructor
    · rintro ⟨_, ha⟩
      exact ⟨adj_mem_top_of_not hbip
        (mem_bottomOf.mp (List.mem_toFinset.mp hu)).2 ha, ha⟩
    · rintro ⟨hw, ha⟩
      exact ⟨mem_nodeSet.mpr (hsub w (mem_topOf.mp hw)), ha⟩
  calc ((topOf nodes).map G.degree).sum
      = ∑ v in (topOf nodes).toFinset, G.degree v :=
        (sum_toFinset_of_nodup _ _ (topOf_nodup nodes)).symm
    _ = ∑ v in (topOf nodes).toFinset, ∑ u in (bottomOf G nodes).toFinset,
          (if G.adj v u = true then 1 else 0) := by
        apply Finset.sum_congr rfl
        intro v hv
        rw [degree_eq_card hbip v, hT v hv, Finset.card_filter]
    _ = ∑ u in (bottomOf G nodes).toFinset, ∑ v in (topOf nodes).toFinset,
          (if G.adj v u = true then 1 else 0) := Finset.sum_comm
    _ = ∑ u in (bottomOf G nodes).toFinset, ∑ v in (topOf nodes).toFinset,
          (if G.adj u v = true then 1 else 0) := by
        apply Finset.sum_congr rfl
        intro u _
        apply Finset.sum_congr rfl
        intro v _
        rw [adj_comm]
    _ = ∑ u in (bottomOf G nodes).toFinset, G.degree u := by
        apply Finset.sum_congr rfl
        intro u hu
        rw [degree_eq_card hbip u, hB u hu, Finset.card_filter]
    _ = ((bottomOf G nodes).map G.degree).sum :=
        sum_toFinset_of_nodup _ _ (bottomOf_nodup G nodes)

/-- C9 (witness): on `G3` with Top = {0, 1}, both degree sums equal 1. -/
theorem degree_sum_balance_w :
    ((topOf [0, 1]).map G3.degree).sum = ((bottomOf G3 [0, 1]).map G3.degree).sum :=
  degree_sum_balance G3 [0, 1] (by decide) (by decide)

end BipartiteCentrality
